import Mathlib

/-!
A formal model of the MM-LRC-to-VTT lyrics-generator core: a shallow embedding
in Lean 4 of the Python sources `lyrics-generator/dsc/__init__.py` and
`lyrics-generator/__main__.py` — the DSC binary codec, the timeline builder,
the clock-value conversion, the lyric assembler and the `pv_db` text database
parsing — together with theorems checking the specified properties against
this model.

Modelling conventions:
* a binary stream is a `List Nat` of byte values; `file.read n` returns
  `take n` of the remaining bytes (Python `read` returns at most `n` bytes,
  and the empty bytestring at end of stream);
* Python exceptions are modelled with `Except PyError`; a generator consumed
  by `list(...)` either produces the whole list or raises, so the decode is
  materialised as `Except PyError (List DscCommand)`;
* a Python `dict` is an association list updated in place (`pyDictInsert`),
  a Python `set` of strings is a deduplicated list (`distinctList`);
* the `float` division in `time_from_timestamp` is modelled by exact rational
  arithmetic; the properties proved about it hold in either semantics, since
  the inputs involved are exactly representable;
* the file written by `save_dsc` is returned as the list of bytes written.
-/

/-- Python-level errors raised by the embedded functions. -/
inductive PyError where
  /-- `struct.error`: `struct.unpack` on fewer bytes than the format needs, or
  `struct.pack('<i', x)` with `x` outside the signed 32-bit range. -/
  | structError : PyError
  /-- `ValueError`: a failed `int(...)` conversion, a failed tuple unpacking,
  or an out-of-range `datetime.time` component. -/
  | valueError : PyError
  /-- `IndexError`: a sequence index out of range. -/
  | indexError : PyError
  /-- `DscUnknownCommand` (`dsc/__init__.py`, lines 29–32): a command id
  absent from the opcode table; carries the id. -/
  | dscUnknownCommand (id : Int) : PyError
  /-- `DscInvalidData` (`dsc/__init__.py`, lines 16–26): raised by `save_dsc`;
  carries the command id, the table name, the table `length` field and the
  offending payload. -/
  | dscInvalidData (id : Int) (name : String) (length : Nat) (data : List Nat) : PyError
deriving DecidableEq, Repr

instance {ε α : Type} [DecidableEq ε] [DecidableEq α] : DecidableEq (Except ε α) := fun
  | .error e₁, .error e₂ =>
    match decEq e₁ e₂ with
    | isTrue h => isTrue (by rw [h])
    | isFalse h => isFalse (fun hh => h (Except.error.inj hh))
  | .error _, .ok _ => isFalse (fun hh => Except.noConfusion hh)
  | .ok _, .error _ => isFalse (fun hh => Except.noConfusion hh)
  | .ok a₁, .ok a₂ =>
    match decEq a₁ a₂ with
    | isTrue h => isTrue (by rw [h])
    | isFalse h => isFalse (fun hh => h (Except.ok.inj hh))

/-- Little-endian value of a byte list, as Python `int.from_bytes(bs, 'little')`
(the empty bytestring gives 0). -/
def leFromBytes : List Nat → Nat
  | [] => 0
  | b :: bs => b + 256 * leFromBytes bs

/-- `struct.unpack('<i', bs)` on exactly four bytes: the little-endian signed
32-bit value. -/
def leSigned32 (bs : List Nat) : Int :=
  let u := leFromBytes bs
  if u < 2 ^ 31 then (u : Int) else (u : Int) - 2 ^ 32

/-- The four little-endian bytes written by `struct.pack('<i', i)` for `i` in
the signed 32-bit range. -/
def leBytes32 (i : Int) : List Nat :=
  let u := (i % 2 ^ 32).toNat
  [u % 256, u / 256 % 256, u / 65536 % 256, u / 16777216 % 256]

/-- One decoded record, as yielded by the generator `parse_dsc`
(`dsc/__init__.py`, line 8): `(command id, command name, payload bytes)`. -/
abbrev DscCommand := Int × String × List Nat

/-- Modelled from the spec: `dsc/opcodes.py` (the `get_opcodes` function used
by the codec) is not among the sources.  Per spec §3 and §4.1 the Opcode Table
is a static mapping from numeric command id to a `(name, word_count)`
descriptor, where `word_count` is the number of 4-byte parameter words
(`0 is valid, meaning no parameters`), ids are unique, and its only operation
is lookup.  The codec functions therefore take the table as a parameter. -/
def OpcodeTable : Type := Int → Option (String × Nat)

/-- Modelled from the spec: a sample Opcode Table holding the two designated
opcodes of spec §6 — `TIME` (id 1, a single timestamp word) and `LYRIC`
(id 24, first payload word the line index) — plus a zero-parameter opcode
(spec §3: `word_count` 0 is valid). -/
def sampleCodes : OpcodeTable := fun i =>
  if i = 0 then some ("END", 0)
  else if i = 1 then some ("TIME", 1)
  else if i = 24 then some ("LYRIC", 1)
  else none

/-- The record loop of `parse_dsc` (`dsc/__init__.py`, lines 39–47), on the
bytes remaining after the header.  Each turn: `dsc.read(4)` — an empty read
ends the loop cleanly, one to three bytes make `struct.unpack('<i', ·)` raise
`struct.error` — then the opcode-table lookup (an unknown id is fatal), then
`dsc.read(length * 4)` for the payload, which, like Python `read`, returns
just the remaining bytes when fewer are left.  The yielded records are
materialised into a list. -/
def parse_loop (codes : OpcodeTable) : List Nat → Except PyError (List DscCommand)
  | [] => .ok []
  | b0 :: b1 :: b2 :: b3 :: bs =>
    let command_id := leSigned32 [b0, b1, b2, b3]
    match codes command_id with
    | none => .error (.dscUnknownCommand command_id)
    | some (name, length) =>
      match parse_loop codes (bs.drop (length * 4)) with
      | .ok cmds => .ok ((command_id, name, bs.take (length * 4)) :: cmds)
      | .error e => .error e
  | _ => .error .structError
termination_by l => l.length
decreasing_by
  simp only [List.length_drop, List.length_cons]
  omega

/-- `parse_dsc` (`dsc/__init__.py`, lines 35–47): read (and discard) the
4-byte magic header, then run the record loop on the remaining bytes. -/
def parse_dsc (codes : OpcodeTable) (dsc : List Nat) : Except PyError (List DscCommand) :=
  parse_loop codes (dsc.drop 4)

/-- `save_dsc` (`dsc/__init__.py`, lines 59–75).  For each command in order:
an id absent from the table raises `DscUnknownCommand`; `struct.pack('<i', ·)`
raises `struct.error` outside the signed 32-bit range; then the source
compares `len(data)` with the table `length` field (the word count) and raises
`DscInvalidData` exactly on equality (line 71); otherwise the 4 id bytes and
the payload are written.  The concatenation of all bytes written on the
success path is returned. -/
def save_dsc (codes : OpcodeTable) : List DscCommand → Except PyError (List Nat)
  | [] => .ok []
  | (command_id, _, data) :: commands =>
    match codes command_id with
    | none => .error (.dscUnknownCommand command_id)
    | some (name, length) =>
      if command_id < -(2 ^ 31) ∨ 2 ^ 31 ≤ command_id then .error .structError
      else if data.length = length then
        .error (.dscInvalidData command_id name length data)
      else
        match save_dsc codes commands with
        | .ok out => .ok (leBytes32 command_id ++ data ++ out)
        | .error e => .error e

/-- A `datetime.time` value — hour, minute, second, microsecond — kept as
integers; `mkPyTime` performs the range validation of the `datetime.time`
constructor, which raises `ValueError` on out-of-range components. -/
structure PyTime where
  hour : Int
  minute : Int
  second : Int
  microsecond : Int
deriving DecidableEq, Repr

/-- The validating `datetime.time(hour, minute, second, microsecond)`
constructor. -/
def mkPyTime (hour minute second microsecond : Int) : Except PyError PyTime :=
  if 0 ≤ hour ∧ hour ≤ 23 ∧ 0 ≤ minute ∧ minute ≤ 59 ∧ 0 ≤ second ∧ second ≤ 59
      ∧ 0 ≤ microsecond ∧ microsecond ≤ 999999 then
    .ok ⟨hour, minute, second, microsecond⟩
  else
    .error .valueError

/-- The arithmetic of `time_from_timestamp` (`__main__.py`, lines 88–96)
before the `datetime.time` call, returning
`(hours, minutes, seconds, microseconds)`.  Python's float `/`, `//` and `%`
are modelled by exact rational arithmetic; `int(x)` on the non-negative values
arising here is `⌊x⌋`, and `x % d` for `d > 0` is `x - d * ⌊x / d⌋`. -/
def timestamp_parts (ts : Int) : Int × Int × Int × Int :=
  let seconds0 : ℚ := max 0 ((ts : ℚ) / 100000)
  let hours : Int := ⌊seconds0 / 3600⌋
  let seconds1 : ℚ := seconds0 - 3600 * (⌊seconds0 / 3600⌋ : ℚ)
  let minutes : Int := ⌊seconds1 / 60⌋
  let seconds2 : ℚ := seconds1 - 60 * (⌊seconds1 / 60⌋ : ℚ)
  let microseconds : Int := ⌊(seconds2 - (⌊seconds2⌋ : ℚ)) * 1000000⌋
  (hours, minutes, ⌊seconds2⌋, microseconds)

/-- `time_from_timestamp` (`__main__.py`, lines 88–97). -/
def time_from_timestamp (ts : Int) : Except PyError PyTime :=
  let p := timestamp_parts ts
  mkPyTime p.1 p.2.1 p.2.2.1 p.2.2.2

/-- The type of the `time` variable of `get_times` (`__main__.py`, lines
100–113): it starts as the Python integer `0` and becomes a `datetime.time`
once a `TIME` command has been seen.  A Python `int` and a `datetime.time`
are never equal and are distinct dictionary keys. -/
inductive Clock where
  | intVal (n : Int) : Clock
  | timeVal (t : PyTime) : Clock
deriving DecidableEq, Repr

/-- Python `dict` update `m[k] = v` on an association list: replace the value
at the first occurrence of `k`, append when `k` is absent. -/
def pyDictInsert {α β : Type} [DecidableEq α] : List (α × β) → α → β → List (α × β)
  | [], k, v => [(k, v)]
  | p :: m, k, v => if p.1 = k then (k, v) :: m else p :: pyDictInsert m k v

/-- Python `dict` lookup on an association list. -/
def pyDictGet? {α β : Type} [DecidableEq α] : List (α × β) → α → Option β
  | [], _ => none
  | p :: m, k => if p.1 = k then some p.2 else pyDictGet? m k

/-- The loop of `get_times` (`__main__.py`, lines 100–113) with its two state
variables explicit — `time`, the current clock, and `times`, the dictionary
built so far.  A `TIME` command (id 1) reads its whole payload as a
little-endian unsigned integer and replaces the clock with the converted
`datetime.time` (the conversion may raise); a `LYRIC` command (id 24) reads
the first four payload bytes as the line index and binds the current clock to
it; every other id is skipped. -/
def get_times_loop (time : Clock) (times : List (Clock × Nat)) :
    List DscCommand → Except PyError (List (Clock × Nat))
  | [] => .ok times
  | (id_, _, params) :: rest =>
    if id_ = 1 then
      match time_from_timestamp (leFromBytes params) with
      | .error e => .error e
      | .ok t => get_times_loop (.timeVal t) times rest
    else if id_ = 24 then
      get_times_loop time (pyDictInsert times time (leFromBytes (params.take 4))) rest
    else
      get_times_loop time times rest

/-- `get_times` (`__main__.py`, lines 100–113): the loop started with
`time = 0` (the Python integer) and an empty dictionary. -/
def get_times (dsc : List DscCommand) : Except PyError (List (Clock × Nat)) :=
  get_times_loop (.intVal 0) [] dsc


/-- A Python string, embedded as its list of characters. -/
abbrev PyStr := List Char

/-- The characters of Python's `string.whitespace`. -/
def pyWhitespaceChars : List Char := [' ', '\t', '\n', '\x0d', '\x0b', '\x0c']

/-- Python `s.strip(string.whitespace)`: remove leading and trailing
whitespace characters. -/
def pyStripWs (s : PyStr) : PyStr :=
  ((s.dropWhile (fun c => pyWhitespaceChars.contains c)).reverse.dropWhile
    (fun c => pyWhitespaceChars.contains c)).reverse

/-- Python `s.strip('_')`: remove leading and trailing underscores. -/
def pyStripUnderscores (s : PyStr) : PyStr :=
  ((s.dropWhile (fun c => c == '_')).reverse.dropWhile (fun c => c == '_')).reverse

/-- Python `s.split(sep, 1)` for a single-character separator, unpacked into
exactly two parts: `none` when `sep` does not occur (the unpacking then raises
`ValueError`), otherwise the part before the first `sep` and everything after
it, verbatim. -/
def pyBreakAt (sep : Char) : PyStr → Option (PyStr × PyStr)
  | [] => none
  | c :: cs =>
    if c = sep then some ([], cs)
    else (pyBreakAt sep cs).map (fun p => (c :: p.1, p.2))

/-- Python `s.split(sep)` for a single-character separator: the (possibly
empty) chunks between occurrences of `sep`; the empty string gives `[[]]`. -/
def pySplit (sep : Char) : PyStr → List PyStr
  | [] => [[]]
  | c :: cs =>
    if c = sep then [] :: pySplit sep cs
    else
      match pySplit sep cs with
      | [] => [[c]]
      | g :: gs => (c :: g) :: gs

/-- The scanner behind `pyReplace`: while the skip counter is positive the
character was part of an already-replaced occurrence and is dropped; at zero,
an occurrence of the pattern starting here emits the replacement and skips the
rest of the pattern, any other character is copied. -/
def pyReplaceGo (pat newL : PyStr) : PyStr → Nat → PyStr
  | [], _ => []
  | _ :: cs, n + 1 => pyReplaceGo pat newL cs n
  | c :: cs, 0 =>
    if pat ≠ [] ∧ pat.isPrefixOf (c :: cs) then
      newL ++ pyReplaceGo pat newL cs (pat.length - 1)
    else
      c :: pyReplaceGo pat newL cs 0

/-- Python `s.replace(pat, new)` for a non-empty pattern: replace every
(left-to-right, non-overlapping) occurrence.  The program only uses the
patterns `pv_` and `lyric`; an empty pattern is treated as a no-op here. -/
def pyReplace (pat newL : PyStr) (s : PyStr) : PyStr :=
  pyReplaceGo pat newL s 0

/-- `is_comment` inside `PvDb.parse` (`__main__.py`, lines 42–48): the
stripped line is empty or starts with `#`. -/
def is_comment (line : PyStr) : Bool :=
  let stripped := pyStripWs line
  stripped.isEmpty || (['#'].isPrefixOf stripped)

/-- `handle_line` inside `PvDb.parse` (`__main__.py`, lines 31–40): strip the
line, `line.split('=', 1)` unpacked into exactly two names — a line with no
`=` makes the unpacking raise `ValueError` — then split the key on `.` into
the key path. -/
def handle_line (line : PyStr) : Except PyError (List PyStr × PyStr) :=
  match pyBreakAt '=' (pyStripWs line) with
  | none => .error .valueError
  | some (key, value) => .ok (pySplit '.' key, value)

/-- `PvDb` (`__main__.py`, lines 22–24): the parsed database entries, each a
`(key path, value)` pair. -/
structure PvDb where
  data : List (List PyStr × PyStr)
deriving DecidableEq, Repr

/-- `PvDb.parse` (`__main__.py`, lines 27–50): drop comment lines, parse every
other line with `handle_line`; the list comprehension evaluates in order and
propagates the first error. -/
def PvDb.parse : List PyStr → Except PyError (List (List PyStr × PyStr))
  | [] => .ok []
  | line :: rest =>
    if is_comment line then PvDb.parse rest
    else
      match handle_line line with
      | .error e => .error e
      | .ok kv =>
        match PvDb.parse rest with
        | .error e => .error e
        | .ok tail => .ok (kv :: tail)

/-- `PvDb.from_file_text` (`__main__.py`, lines 52–54). -/
def PvDb.from_file_text (file_text : List PyStr) : Except PyError PvDb :=
  match PvDb.parse file_text with
  | .error e => .error e
  | .ok data => .ok ⟨data⟩

/-- The digits of a Python decimal integer after the optional sign: decimal
digits with single underscores allowed between digits. -/
def pyDigitsRest : List Char → Bool
  | [] => true
  | '_' :: [] => false
  | '_' :: c :: cs => c.isDigit && pyDigitsRest cs
  | c :: cs => c.isDigit && pyDigitsRest cs

/-- Validity of the digit part of `int(s)`: non-empty and well-formed. -/
def pyDigitsOk : List Char → Bool
  | [] => false
  | c :: cs => c.isDigit && pyDigitsRest cs

/-- Decimal value of a digit list. -/
def digitsValue (l : List Char) : Nat :=
  l.foldl (fun a c => 10 * a + (c.toNat - 48)) 0

/-- Python `int(s)` on a string: surrounding whitespace is ignored, then an
optional sign and a decimal digit sequence (single underscores allowed
between digits); anything else raises `ValueError`, modelled as `none`. -/
def pyInt (s : PyStr) : Option Int :=
  match pyStripWs s with
  | '-' :: rest =>
    if pyDigitsOk rest then some (-(digitsValue (rest.filter (fun c => c != '_')) : Int))
    else none
  | '+' :: rest =>
    if pyDigitsOk rest then some ((digitsValue (rest.filter (fun c => c != '_')) : Int))
    else none
  | rest =>
    if pyDigitsOk rest then some ((digitsValue (rest.filter (fun c => c != '_')) : Int))
    else none

/-- The filtering loop of `PvDb.get_song_data` (`__main__.py`, line 60): the
condition `int(key[0].replace('pv_', '')) == song_id` is evaluated for every
entry of the database in order, so it raises as soon as any entry's first
segment (with all occurrences of `pv_` removed) fails to parse as an integer
(`key[0]` of an empty path is an `IndexError`). -/
def song_data_loop (song_id : Int) : List (List PyStr × PyStr) →
    Except PyError (List (List PyStr × PyStr))
  | [] => .ok []
  | (key, value) :: rest =>
    match key with
    | [] => .error .indexError
    | k0 :: _ =>
      match pyInt (pyReplace ['p', 'v', '_'] [] k0) with
      | none => .error .valueError
      | some n =>
        match song_data_loop song_id rest with
        | .error e => .error e
        | .ok tail => .ok (if n = song_id then (key, value) :: tail else tail)

/-- `PvDb.get_song_data` (`__main__.py`, lines 56–61). -/
def PvDb.get_song_data (db : PvDb) (song_id : Int) :
    Except PyError (List (List PyStr × PyStr)) :=
  song_data_loop song_id db.data

/-- `PvDb.get_song_name` (`__main__.py`, lines 63–69): the first matching
entry's value — the match compares the key path's last segment with
`f'song_name{postfix}'` — or `none` (Python `None`) without a match. -/
def PvDb.get_song_name (db : PvDb) (song_id : Int) (tag : PyStr) :
    Except PyError (Option PyStr) :=
  match db.get_song_data song_id with
  | .error e => .error e
  | .ok data =>
    .ok (data.findSome? (fun p =>
      if p.1.getLast? = some (('s' :: 'o' :: 'n' :: 'g' :: '_' :: 'n' :: 'a' :: 'm' :: 'e' :: []) ++ tag)
      then some p.2 else none))

/-- The comprehension of `PvDb.get_lyrics` (`__main__.py`, lines 77–80): keep
entries whose second key segment starts with `lyric`, as
`(language tag before defaulting, line index, value)` rows.  The condition and
the row expression are evaluated in database order, so a missing second or
third segment (`IndexError`) or a non-integer third segment (`ValueError`)
raises. -/
def lyrics_rows : List (List PyStr × PyStr) →
    Except PyError (List (PyStr × Int × PyStr))
  | [] => .ok []
  | (key, value) :: rest =>
    match key.get? 1 with
    | none => .error .indexError
    | some k1 =>
      if (['l', 'y', 'r', 'i', 'c'] : PyStr).isPrefixOf k1 then
        match key.get? 2 with
        | none => .error .indexError
        | some k2 =>
          match pyInt k2 with
          | none => .error .valueError
          | some n =>
            match lyrics_rows rest with
            | .error e => .error e
            | .ok tail =>
              .ok ((pyStripUnderscores (pyReplace ['l', 'y', 'r', 'i', 'c'] [] k1), n, value) :: tail)
      else lyrics_rows rest

/-- `PvDb.get_lyrics` (`__main__.py`, lines 74–85): the rows, stably sorted by
line index, folded into a dictionary keyed by `(language, index)` — an empty
language tag defaults to `jp`; a later row overwrites an earlier row at the
same key. -/
def PvDb.get_lyrics (db : PvDb) (song_id : Int) :
    Except PyError (List ((PyStr × Int) × PyStr)) :=
  match db.get_song_data song_id with
  | .error e => .error e
  | .ok data =>
    match lyrics_rows data with
    | .error e => .error e
    | .ok rows =>
      let sorted := rows.mergeSort (fun a b => a.2.1 ≤ b.2.1)
      .ok (sorted.foldl (fun m item =>
        pyDictInsert m ((if item.1.isEmpty then ['j', 'p'] else item.1), item.2.1) item.2.2) [])

/-- Helper for `distinctList`: keep the elements not in `seen` yet. -/
def distinctAux {α : Type} [DecidableEq α] : List α → List α → List α
  | [], _ => []
  | x :: xs, seen => if x ∈ seen then distinctAux xs seen else x :: distinctAux xs (x :: seen)

/-- The distinct elements of a list, first occurrences kept: models the
Python set built at `__main__.py`, line 120 (a set's iteration order is not
specified, so only membership and distinctness of the result are meaningful). -/
def distinctList {α : Type} [DecidableEq α] (l : List α) : List α :=
  distinctAux l []

/-- `join_lyrics` inside `create_lyrics` (`__main__.py`, lines 122–123): map
each timeline entry `(t, idx)` to `(t, lyrics.get((lang, idx), ''))`. -/
def join_lyrics (times : List (Clock × Nat)) (lyrics : List ((PyStr × Int) × PyStr))
    (lang : PyStr) : List (Clock × PyStr) :=
  times.map (fun p => (p.1, (pyDictGet? lyrics (lang, (p.2 : Int))).getD []))

/-- The body of `create_lyrics` (`__main__.py`, lines 120–125) once the two
maps are in hand: one joined map per distinct language of the lyric map. -/
def create_lyrics_core (times : List (Clock × Nat)) (lyrics : List ((PyStr × Int) × PyStr)) :
    List (PyStr × List (Clock × PyStr)) :=
  (distinctList (lyrics.map (fun p => p.1.1))).map
    (fun lang => (lang, join_lyrics times lyrics lang))

/-- `create_lyrics` (`__main__.py`, lines 116–125). -/
def create_lyrics (dsc : List DscCommand) (db : PvDb) (song_id : Int) :
    Except PyError (List (PyStr × List (Clock × PyStr))) :=
  match db.get_lyrics song_id with
  | .error e => .error e
  | .ok lyrics =>
    match get_times dsc with
    | .error e => .error e
    | .ok times => .ok (create_lyrics_core times lyrics)

/-- Follows the spec's words (§4.3): the clock in effect after a command list,
starting from `c` — the converted timestamp of the last `TIME` command, or `c`
when there is none.  Conversion failures propagate as in the builder. -/
def specClockAfter (c : Clock) : List DscCommand → Except PyError Clock
  | [] => .ok c
  | (id_, _, params) :: rest =>
    if id_ = 1 then
      match time_from_timestamp (leFromBytes params) with
      | .error e => .error e
      | .ok t => specClockAfter (.timeVal t) rest
    else specClockAfter c rest

/-- Follows the spec's words (§4.3): the chronological log of lyric triggers,
each paired with the clock set by the timing command most recently preceding
it in stream order (`c` before the first timing command). -/
def specTriggerLog (c : Clock) : List DscCommand → Except PyError (List (Clock × Nat))
  | [] => .ok []
  | (id_, _, params) :: rest =>
    if id_ = 1 then
      match time_from_timestamp (leFromBytes params) with
      | .error e => .error e
      | .ok t => specTriggerLog (.timeVal t) rest
    else if id_ = 24 then
      match specTriggerLog c rest with
      | .error e => .error e
      | .ok log => .ok ((c, leFromBytes (params.take 4)) :: log)
    else specTriggerLog c rest

/-- The value of the chronologically last binding of key `k` in a log. -/
def lastBound {α β : Type} [DecidableEq α] (log : List (α × β)) (k : α) : Option β :=
  pyDictGet? log.reverse k

theorem pyDictGet?_insert {α β : Type} [DecidableEq α] (m : List (α × β)) (k c : α) (v : β) :
    pyDictGet? (pyDictInsert m k v) c = if k = c then some v else pyDictGet? m c := by
  induction m with
  | nil => simp [pyDictInsert, pyDictGet?]
  | cons p m ih =>
    by_cases hpk : p.1 = k
    · by_cases hkc : k = c
      · simp [pyDictInsert, pyDictGet?, hpk, hkc]
      · have hpc : ¬ p.1 = c := fun h => hkc (hpk ▸ h)
        simp [pyDictInsert, pyDictGet?, hpk, hkc, hpc]
    · by_cases hpc : p.1 = c
      · have hkc : ¬ k = c := fun h => hpk (hpc.trans h.symm)
        have hck : ¬ c = k := fun h => hpk (hpc.trans h)
        simp [pyDictInsert, pyDictGet?, hpk, hpc, hkc, hck]
      · simp [pyDictInsert, pyDictGet?, hpk, hpc, ih]

theorem pyDictGet?_append {α β : Type} [DecidableEq α] (m₁ m₂ : List (α × β)) (k : α) :
    pyDictGet? (m₁ ++ m₂) k = (pyDictGet? m₁ k).or (pyDictGet? m₂ k) := by
  induction m₁ with
  | nil => simp [pyDictGet?, Option.or]
  | cons p m ih =>
    by_cases h : p.1 = k <;> simp [pyDictGet?, h, ih, Option.or]

theorem get_times_loop_spec :
    ∀ (l : List DscCommand) (time : Clock) (times m : List (Clock × Nat)),
      get_times_loop time times l = .ok m →
      ∃ log, specTriggerLog time l = .ok log ∧
        ∀ c, pyDictGet? m c = (lastBound log c).or (pyDictGet? times c) := by
  intro l
  induction l with
  | nil =>
    intro time times m h
    simp only [get_times_loop, Except.ok.injEq] at h
    refine ⟨[], by simp [specTriggerLog], fun c => ?_⟩
    simp [lastBound, pyDictGet?, h, Option.or]
  | cons cmd rest ih =>
    obtain ⟨id_, nm, params⟩ := cmd
    intro time times m h
    by_cases h1 : id_ = 1
    · simp only [get_times_loop, h1, if_true] at h
      cases hconv : time_from_timestamp (leFromBytes params) with
      | error e => rw [hconv] at h; exact absurd h (by simp)
      | ok t =>
        rw [hconv] at h
        obtain ⟨log, hlog, hget⟩ := ih (.timeVal t) times m h
        exact ⟨log, by simp [specTriggerLog, h1, hconv, hlog], hget⟩
    · by_cases h24 : id_ = 24
      · simp only [get_times_loop, h1, h24, if_false, if_true] at h
        obtain ⟨log, hlog, hget⟩ :=
          ih time (pyDictInsert times time (leFromBytes (params.take 4))) m h
        refine ⟨(time, leFromBytes (params.take 4)) :: log, ?_, fun c => ?_⟩
        · simp [specTriggerLog, h1, h24, hlog]
        · rw [hget c]
          simp only [lastBound, List.reverse_cons, pyDictGet?_append, pyDictGet?_insert]
          cases hl : pyDictGet? log.reverse c with
          | some v => simp [Option.or]
          | none =>
            by_cases htc : time = c <;> simp [pyDictGet?, htc, Option.or]
      · simp only [get_times_loop, h1, h24, if_false] at h
        obtain ⟨log, hlog, hget⟩ := ih time times m h
        exact ⟨log, by simp [specTriggerLog, h1, h24, hlog], hget⟩

theorem specTriggerLog_append :
    ∀ (l₁ : List DscCommand) (c : Clock) (l₂ : List DscCommand)
      (log₁ : List (Clock × Nat)) (c₁ : Clock),
      specTriggerLog c l₁ = .ok log₁ → specClockAfter c l₁ = .ok c₁ →
      specTriggerLog c (l₁ ++ l₂) =
        match specTriggerLog c₁ l₂ with
        | .ok log₂ => .ok (log₁ ++ log₂)
        | .error e => .error e := by
  intro l₁
  induction l₁ with
  | nil =>
    intro c l₂ log₁ c₁ h1 h2
    simp only [specTriggerLog, Except.ok.injEq] at h1
    simp only [specClockAfter, Except.ok.injEq] at h2
    subst h1
    subst h2
    simp only [List.nil_append]
    cases specTriggerLog c l₂ <;> simp
  | cons cmd rest ih =>
    obtain ⟨id_, nm, params⟩ := cmd
    intro c l₂ log₁ c₁ h1 h2
    by_cases hid1 : id_ = 1
    · rw [specTriggerLog, if_pos hid1] at h1
      rw [specClockAfter, if_pos hid1] at h2
      cases hconv : time_from_timestamp (leFromBytes params) with
      | error e => rw [hconv] at h1; exact absurd h1 (by simp)
      | ok t =>
        rw [hconv] at h1 h2
        have hind := ih (.timeVal t) l₂ log₁ c₁ h1 h2
        rw [List.cons_append, specTriggerLog, if_pos hid1, hconv]
        exact hind
    · by_cases hid24 : id_ = 24
      · cases hrest : specTriggerLog c rest with
        | error e =>
          rw [specTriggerLog, if_neg hid1, if_pos hid24, hrest] at h1
          exact absurd h1 (by simp)
        | ok log' =>
          rw [specTriggerLog, if_neg hid1, if_pos hid24, hrest] at h1
          rw [specClockAfter, if_neg hid1] at h2
          simp only [Except.ok.injEq] at h1
          subst h1
          have hind := ih c l₂ log' c₁ hrest h2
          rw [List.cons_append, specTriggerLog, if_neg hid1, if_pos hid24, hind]
          cases specTriggerLog c₁ l₂ <;> simp
      · rw [specTriggerLog, if_neg hid1, if_neg hid24] at h1
        rw [specClockAfter, if_neg hid1] at h2
        have hind := ih c l₂ log₁ c₁ h1 h2
        rw [List.cons_append, specTriggerLog, if_neg hid1, if_neg hid24, hind]

/-- C1: decoding a well-formed binary stream and re-encoding the resulting
records is claimed to reproduce the record bytes.  On the code this fails for
a well-formed zero-parameter record (spec §3 allows `word_count` 0): the
decoder accepts it, but the encoder's inverted length check
(`len(data) == length`, `dsc/__init__.py` line 71) then raises
`DscInvalidData` on the correctly sized empty payload.  For a one-word record
the round trip does reproduce the record bytes. -/
theorem parse_save_roundtrip_zero_word :
    parse_dsc sampleCodes ([9, 9, 9, 9] ++ [0, 0, 0, 0]) = .ok [(0, "END", [])] ∧
    save_dsc sampleCodes [(0, "END", [])] = .error (.dscInvalidData 0 "END" 0 []) ∧
    parse_dsc sampleCodes ([9, 9, 9, 9] ++ [1, 0, 0, 0, 160, 134, 1, 0]) =
      .ok [(1, "TIME", [160, 134, 1, 0])] ∧
    save_dsc sampleCodes [(1, "TIME", [160, 134, 1, 0])] = .ok [1, 0, 0, 0, 160, 134, 1, 0] := by
  refine ⟨?_, by decide, ?_, by decide⟩
  · simp [parse_dsc, parse_loop, leSigned32, leFromBytes, sampleCodes]
  · simp [parse_dsc, parse_loop, leSigned32, leFromBytes, sampleCodes]

/-- C2: the encoder is claimed to raise `DscInvalidData` exactly when the
payload length differs from `word_count * 4`.  On the code the check is
`len(data) == length` (`dsc/__init__.py` line 71): an 8-byte payload for the
one-word `TIME` command (expected 4 bytes) is written without error, while a
payload whose byte length happens to equal the word count is rejected even
though the error message claims `length` bytes were required. -/
theorem save_length_check_inverted :
    save_dsc sampleCodes [(1, "TIME", [1, 2, 3, 4, 5, 6, 7, 8])] =
      .ok ([1, 0, 0, 0] ++ [1, 2, 3, 4, 5, 6, 7, 8]) ∧
    ([1, 2, 3, 4, 5, 6, 7, 8] : List Nat).length ≠ 1 * 4 ∧
    save_dsc sampleCodes [(1, "TIME", [9])] = .error (.dscInvalidData 1 "TIME" 1 [9]) := by
  decide

/-- C6: the current clock is claimed to start as the zero Clock Value, binding
a leading lyric trigger to hour 0, minute 0, second 0, zero fraction.  On the
code `time` starts as the Python integer `0` (`__main__.py` line 101), a value
distinct from `datetime.time(0, 0, 0, 0)`: a lyric trigger before the first
`TIME` command is keyed by the integer, and a later trigger at the converted
zero clock creates a second, separate entry. -/
theorem get_times_initial_clock_int_zero :
    get_times [(24, "LYRIC", [7, 0, 0, 0])] = .ok [(Clock.intVal 0, 7)] ∧
    Clock.intVal 0 ≠ Clock.timeVal ⟨0, 0, 0, 0⟩ ∧
    get_times [(24, "LYRIC", [7, 0, 0, 0]), (1, "TIME", [0, 0, 0, 0]), (24, "LYRIC", [8, 0, 0, 0])] =
      .ok [(Clock.intVal 0, 7), (Clock.timeVal ⟨0, 0, 0, 0⟩, 8)] := by
  refine ⟨by decide, by decide, ?_⟩
  simp [get_times, get_times_loop, time_from_timestamp, timestamp_parts, mkPyTime,
    pyDictInsert, leFromBytes]

/-- C3, counterexample: decoding is claimed to fail with a hard error when the
stream ends mid-record.  On the code the payload read is unchecked
(`dsc/__init__.py` line 46): after the header, id 1 (`TIME`, declared payload
4 bytes) followed by only two bytes decodes without error to a record with the
short 2-byte payload. -/
theorem parse_short_read_yields_record :
    parse_dsc sampleCodes ([9, 9, 9, 9] ++ [1, 0, 0, 0] ++ [5, 6]) = .ok [(1, "TIME", [5, 6])] := by
  simp [parse_dsc, parse_loop, leSigned32, leFromBytes, sampleCodes]

/-- C3, as amended: when at least `word_count * 4` payload bytes remain, a
record with a known id consumes exactly `4 + 4k` bytes and yields a `4k`-byte
payload; but when the stream ends mid-record the decoder yields a final record
whose payload is just the remaining bytes, then stops without error. -/
theorem parse_record_consumption :
    (∀ (codes : OpcodeTable) (b0 b1 b2 b3 : Nat) (name : String) (k : Nat)
        (payload rest : List Nat),
      codes (leSigned32 [b0, b1, b2, b3]) = some (name, k) →
      payload.length = 4 * k →
      parse_loop codes (b0 :: b1 :: b2 :: b3 :: (payload ++ rest)) =
        match parse_loop codes rest with
        | .ok cmds => .ok ((leSigned32 [b0, b1, b2, b3], name, payload) :: cmds)
        | .error e => .error e) ∧
    (∀ (codes : OpcodeTable) (b0 b1 b2 b3 : Nat) (name : String) (k : Nat)
        (remaining : List Nat),
      codes (leSigned32 [b0, b1, b2, b3]) = some (name, k) →
      remaining.length < 4 * k →
      parse_loop codes (b0 :: b1 :: b2 :: b3 :: remaining) =
        .ok [(leSigned32 [b0, b1, b2, b3], name, remaining)]) := by
  constructor
  · intro codes b0 b1 b2 b3 name k payload rest hcode hlen
    rw [parse_loop]
    simp only [hcode]
    rw [List.drop_left' (by omega : payload.length = k * 4),
      List.take_left' (by omega : payload.length = k * 4)]
  · intro codes b0 b1 b2 b3 name k remaining hcode hlen
    rw [parse_loop]
    simp only [hcode]
    rw [List.drop_eq_nil_of_le (by omega : remaining.length ≤ k * 4),
      List.take_of_length_le (by omega : remaining.length ≤ k * 4)]
    rw [parse_loop]

/-- Witness for the amended C3 theorem at a concrete record. -/
theorem parse_record_consumption_witness :
    parse_loop sampleCodes (1 :: 0 :: 0 :: 0 :: ([160, 134, 1, 0] ++ [])) =
      .ok [(leSigned32 [1, 0, 0, 0], "TIME", [160, 134, 1, 0])] := by
  have h := parse_record_consumption.1 sampleCodes 1 0 0 0 "TIME" 1 [160, 134, 1, 0] []
    (by decide) (by decide)
  rw [h]
  simp [parse_loop]

/-- C4: a command id absent from the Opcode Table makes both the decoder and
the encoder raise `DscUnknownCommand` carrying that id, whatever bytes or
records follow — the error is fatal to the current file, with no
skip-and-continue (`dsc/__init__.py` lines 42–43 and 65–66). -/
theorem unknown_command_fatal :
    (∀ (codes : OpcodeTable) (header : List Nat) (b0 b1 b2 b3 : Nat) (rest : List Nat),
      header.length = 4 →
      codes (leSigned32 [b0, b1, b2, b3]) = none →
      parse_dsc codes (header ++ b0 :: b1 :: b2 :: b3 :: rest) =
        .error (.dscUnknownCommand (leSigned32 [b0, b1, b2, b3]))) ∧
    (∀ (codes : OpcodeTable) (done : List DscCommand) (out : List Nat) (id_ : Int)
        (name : String) (data : List Nat) (more : List DscCommand),
      save_dsc codes done = .ok out →
      codes id_ = none →
      save_dsc codes (done ++ (id_, name, data) :: more) =
        .error (.dscUnknownCommand id_)) := by
  constructor
  · intro codes header b0 b1 b2 b3 rest hlen hnone
    rw [parse_dsc, List.drop_left' hlen, parse_loop]
    simp only [hnone]
  · intro codes done
    induction done with
    | nil =>
      intro out id_ name data more _ hnone
      rw [List.nil_append, save_dsc]
      simp only [hnone]
    | cons cmd done' ih =>
      intro out id_ name data more hok hnone
      obtain ⟨cid, cname, cdata⟩ := cmd
      rw [save_dsc] at hok
      rw [List.cons_append, save_dsc]
      cases hc : codes cid with
      | none => rw [hc] at hok; exact absurd hok (by simp)
      | some nl =>
        obtain ⟨nm, len⟩ := nl
        rw [hc] at hok
        simp only at hok ⊢
        by_cases hrange : cid < -(2 ^ 31) ∨ 2 ^ 31 ≤ cid
        · rw [if_pos hrange] at hok; exact absurd hok (by simp)
        · rw [if_neg hrange] at hok ⊢
          by_cases hlen : cdata.length = len
          · rw [if_pos hlen] at hok; exact absurd hok (by simp)
          · rw [if_neg hlen] at hok ⊢
            cases hrec : save_dsc codes done' with
            | error e => rw [hrec] at hok; exact absurd hok (by simp)
            | ok out' =>
              rw [ih out' id_ name data more hrec hnone]

/-- Witness for C4 at a concrete unknown id on both sides. -/
theorem unknown_command_fatal_witness :
    parse_dsc sampleCodes ([9, 9, 9, 9] ++ 7 :: 0 :: 0 :: 0 :: [1, 2, 3]) =
      .error (.dscUnknownCommand (leSigned32 [7, 0, 0, 0])) ∧
    save_dsc sampleCodes ([(1, "TIME", [160, 134, 1, 0])] ++ (7, "???", [1]) :: [(1, "TIME", [0, 0, 0, 0])]) =
      .error (.dscUnknownCommand 7) := by
  constructor
  · exact unknown_command_fatal.1 sampleCodes [9, 9, 9, 9] 7 0 0 0 [1, 2, 3] (by decide) (by decide)
  · exact unknown_command_fatal.2 sampleCodes [(1, "TIME", [160, 134, 1, 0])]
      [1, 0, 0, 0, 160, 134, 1, 0] 7 "???" [1] [(1, "TIME", [0, 0, 0, 0])] (by decide) (by decide)

/-- C5: whenever `get_times` succeeds, its map agrees at every clock value
with the chronological trigger log prescribed by spec §4.3 — each trigger
bound to the clock of the most recent preceding timing command — taking the
log's last binding per clock value (last-write-wins); and the log of a prefix
is insensitive to what follows: appending commands only appends log entries,
each bound relative to the clock reached at the end of the prefix, so a
trigger never binds to a timing command that appears later. -/
theorem get_times_binds_most_recent :
    (∀ (dsc : List DscCommand) (m : List (Clock × Nat)),
      get_times dsc = .ok m →
      ∃ log, specTriggerLog (Clock.intVal 0) dsc = .ok log ∧
        ∀ c, pyDictGet? m c = lastBound log c) ∧
    (∀ (c : Clock) (l₁ l₂ : List DscCommand) (log₁ : List (Clock × Nat)) (c₁ : Clock),
      specTriggerLog c l₁ = .ok log₁ → specClockAfter c l₁ = .ok c₁ →
      specTriggerLog c (l₁ ++ l₂) =
        match specTriggerLog c₁ l₂ with
        | .ok log₂ => .ok (log₁ ++ log₂)
        | .error e => .error e) := by
  constructor
  · intro dsc m h
    obtain ⟨log, hlog, hget⟩ := get_times_loop_spec dsc (Clock.intVal 0) [] m h
    refine ⟨log, hlog, fun c => ?_⟩
    rw [hget c]
    cases lastBound log c <;> simp [pyDictGet?, Option.or]
  · intro c l₁ l₂ log₁ c₁ h1 h2
    exact specTriggerLog_append l₁ c l₂ log₁ c₁ h1 h2

/-- Witness for C5: two triggers before any timing command overwrite each
other at the initial clock (last-write-wins), and appending a trigger only
appends a log entry bound at the prefix's final clock. -/
theorem get_times_binds_most_recent_witness :
    pyDictGet? [(Clock.intVal 0, 9)] (Clock.intVal 0) =
      lastBound [(Clock.intVal 0, 7), (Clock.intVal 0, 9)] (Clock.intVal 0) ∧
    specTriggerLog (Clock.intVal 0)
        ([(24, "LYRIC", [7, 0, 0, 0])] ++ [(24, "LYRIC", [9, 0, 0, 0])]) =
      match specTriggerLog (Clock.intVal 0) [(24, "LYRIC", [9, 0, 0, 0])] with
      | .ok log₂ => .ok ([(Clock.intVal 0, 7)] ++ log₂)
      | .error e => .error e := by
  constructor
  · obtain ⟨log, hlog, hget⟩ := get_times_binds_most_recent.1
      [(24, "LYRIC", [7, 0, 0, 0]), (5, "MIKU_MOVE", []), (24, "LYRIC", [9, 0, 0, 0])]
      [(Clock.intVal 0, 9)] (by decide)
    have h2 : specTriggerLog (Clock.intVal 0)
        [(24, "LYRIC", [7, 0, 0, 0]), (5, "MIKU_MOVE", []), (24, "LYRIC", [9, 0, 0, 0])] =
        .ok [(Clock.intVal 0, 7), (Clock.intVal 0, 9)] := by decide
    rw [hlog] at h2
    rw [← Except.ok.inj h2]
    exact hget (Clock.intVal 0)
  · exact get_times_binds_most_recent.2 (Clock.intVal 0)
      [(24, "LYRIC", [7, 0, 0, 0])] [(24, "LYRIC", [9, 0, 0, 0])]
      [(Clock.intVal 0, 7)] (Clock.intVal 0) (by decide) (by decide)

theorem timestamp_parts_nonneg (ts : Int) :
    0 ≤ (timestamp_parts ts).1 ∧ 0 ≤ (timestamp_parts ts).2.1 ∧
    0 ≤ (timestamp_parts ts).2.2.1 ∧ 0 ≤ (timestamp_parts ts).2.2.2 := by
  simp only [timestamp_parts]
  set s0 : ℚ := max 0 ((ts : ℚ) / 100000) with hs0
  have h0 : (0 : ℚ) ≤ s0 := le_max_left 0 _
  set s1 : ℚ := s0 - 3600 * (⌊s0 / 3600⌋ : ℚ) with hs1
  have h1 : (0 : ℚ) ≤ s1 := by
    have hle : (⌊s0 / 3600⌋ : ℚ) ≤ s0 / 3600 := Int.floor_le _
    have : 3600 * (⌊s0 / 3600⌋ : ℚ) ≤ 3600 * (s0 / 3600) := by linarith
    have heq : 3600 * (s0 / 3600) = s0 := by ring
    simp only [hs1]
    linarith
  set s2 : ℚ := s1 - 60 * (⌊s1 / 60⌋ : ℚ) with hs2
  have h2 : (0 : ℚ) ≤ s2 := by
    have hle : (⌊s1 / 60⌋ : ℚ) ≤ s1 / 60 := Int.floor_le _
    have : 60 * (⌊s1 / 60⌋ : ℚ) ≤ 60 * (s1 / 60) := by linarith
    have heq : 60 * (s1 / 60) = s1 := by ring
    simp only [hs2]
    linarith
  refine ⟨?_, ?_, ?_, ?_⟩
  · exact Int.floor_nonneg.mpr (div_nonneg h0 (by norm_num))
  · exact Int.floor_nonneg.mpr (div_nonneg h1 (by norm_num))
  · exact Int.floor_nonneg.mpr h2
  · refine Int.floor_nonneg.mpr (mul_nonneg ?_ (by norm_num))
    have := Int.floor_le s2
    linarith

/-- C7: the clock-value conversion sends raw timestamp `100000` to exactly
0 hours, 0 minutes, 1 second, 0 microseconds; raw timestamp `0` — and, by the
`max(0, ·)` clamp, every non-positive timestamp — to the zero clock value; and
for every integer timestamp all four computed components are non-negative. -/
theorem time_conversion_properties :
    time_from_timestamp 100000 = .ok ⟨0, 0, 1, 0⟩ ∧
    time_from_timestamp 0 = .ok ⟨0, 0, 0, 0⟩ ∧
    (∀ ts : Int, ts ≤ 0 → time_from_timestamp ts = .ok ⟨0, 0, 0, 0⟩) ∧
    (∀ ts : Int, 0 ≤ (timestamp_parts ts).1 ∧ 0 ≤ (timestamp_parts ts).2.1 ∧
      0 ≤ (timestamp_parts ts).2.2.1 ∧ 0 ≤ (timestamp_parts ts).2.2.2) := by
  refine ⟨?_, ?_, ?_, timestamp_parts_nonneg⟩
  · simp [time_from_timestamp, timestamp_parts, mkPyTime]
    norm_num
  · simp [time_from_timestamp, timestamp_parts, mkPyTime]
  · intro ts hts
    have hx : ((ts : ℚ) / 100000) ≤ 0 := by
      apply div_nonpos_of_nonpos_of_nonneg
      · exact_mod_cast hts
      · norm_num
    simp [time_from_timestamp, timestamp_parts, mkPyTime, max_eq_left hx]

/-- Witness for C7 at a concrete negative timestamp. -/
theorem time_conversion_properties_witness :
    time_from_timestamp (-5) = .ok ⟨0, 0, 0, 0⟩ :=
  time_conversion_properties.2.2.1 (-5) (by decide)

theorem distinctAux_mem {α : Type} [DecidableEq α] :
    ∀ (l seen : List α) (a : α), a ∈ distinctAux l seen ↔ a ∈ l ∧ a ∉ seen := by
  intro l
  induction l with
  | nil => simp [distinctAux]
  | cons x xs ih =>
    intro seen a
    by_cases hx : x ∈ seen
    · rw [distinctAux, if_pos hx, ih]
      simp only [List.mem_cons]
      constructor
      · rintro ⟨h1, h2⟩
        exact ⟨Or.inr h1, h2⟩
      · rintro ⟨h1 | h1, h2⟩
        · exact absurd (h1 ▸ hx) h2
        · exact ⟨h1, h2⟩
    · rw [distinctAux, if_neg hx]
      simp only [List.mem_cons, ih]
      constructor
      · rintro (rfl | ⟨h1, h2⟩)
        · exact ⟨Or.inl rfl, hx⟩
        · exact ⟨Or.inr h1, fun hs => h2 (Or.inr hs)⟩
      · rintro ⟨h1 | h1, h2⟩
        · exact Or.inl h1
        · by_cases hax : a = x
          · exact Or.inl hax
          · exact Or.inr ⟨h1, fun hs => hs.elim hax h2⟩

theorem distinctAux_nodup {α : Type} [DecidableEq α] :
    ∀ (l seen : List α), (distinctAux l seen).Nodup := by
  intro l
  induction l with
  | nil => simp [distinctAux]
  | cons x xs ih =>
    intro seen
    by_cases hx : x ∈ seen
    · rw [distinctAux, if_pos hx]
      exact ih seen
    · rw [distinctAux, if_neg hx]
      refine List.nodup_cons.mpr ⟨fun hmem => ?_, ih (x :: seen)⟩
      exact ((distinctAux_mem xs (x :: seen) x).mp hmem).2 (List.mem_cons_self x seen)

/-- C8: the lyric assembler produces exactly one output map per distinct
language of the lyric map; an entry whose `(language, index)` key is absent
resolves to the empty string, never an error; and a language never referenced
by the timeline still appears, with every timeline clock mapped to the empty
string. -/
theorem create_lyrics_assembles :
    ∀ (times : List (Clock × Nat)) (lyrics : List ((PyStr × Int) × PyStr)),
      ((create_lyrics_core times lyrics).map Prod.fst).Nodup ∧
      (∀ lang, lang ∈ (create_lyrics_core times lyrics).map Prod.fst ↔
        ∃ idx txt, ((lang, idx), txt) ∈ lyrics) ∧
      (∀ lang m, (lang, m) ∈ create_lyrics_core times lyrics →
        ∀ t idx, (t, idx) ∈ times → pyDictGet? lyrics (lang, (idx : Int)) = none →
          (t, ([] : PyStr)) ∈ m) ∧
      (∀ lang m, (lang, m) ∈ create_lyrics_core times lyrics →
        (∀ t idx, (t, idx) ∈ times → pyDictGet? lyrics (lang, (idx : Int)) = none) →
          m.map Prod.fst = times.map Prod.fst ∧ ∀ p ∈ m, p.2 = ([] : PyStr)) := by
  intro times lyrics
  have hkeys : (create_lyrics_core times lyrics).map Prod.fst =
      distinctList (lyrics.map (fun p => p.1.1)) := by
    simp [create_lyrics_core, List.map_map, Function.comp_def]
  have hmem : ∀ lang m, (lang, m) ∈ create_lyrics_core times lyrics →
      m = join_lyrics times lyrics lang := by
    intro lang m hm
    simp only [create_lyrics_core, List.mem_map] at hm
    obtain ⟨lang', _, heq⟩ := hm
    obtain ⟨h1, h2⟩ := Prod.mk.injEq .. ▸ heq
    exact h1 ▸ h2.symm
  refine ⟨?_, ?_, ?_, ?_⟩
  · rw [hkeys]
    exact distinctAux_nodup _ []
  · intro lang
    rw [hkeys]
    rw [distinctList, distinctAux_mem]
    simp only [List.mem_map, List.not_mem_nil, not_false_iff, and_true]
    constructor
    · rintro ⟨p, hp, hfst⟩
      exact ⟨p.1.2, p.2, by simpa [← hfst] using hp⟩
    · rintro ⟨idx, txt, hmem'⟩
      exact ⟨((lang, idx), txt), hmem', rfl⟩
  · intro lang m hm t idx ht hnone
    rw [hmem lang m hm]
    have : ((t, idx) : Clock × Nat) ∈ times := ht
    have hx := List.mem_map_of_mem
      (fun p : Clock × Nat => (p.1, (pyDictGet? lyrics (lang, (p.2 : Int))).getD [])) this
    simpa [join_lyrics, hnone] using hx
  · intro lang m hm hall
    rw [hmem lang m hm]
    constructor
    · simp [join_lyrics, List.map_map, Function.comp]
    · intro p hp
      simp only [join_lyrics, List.mem_map] at hp
      obtain ⟨q, hq, hpq⟩ := hp
      have hnone := hall q.1 q.2 (by simpa using hq)
      rw [← hpq]
      simp [hnone]

/-- Witness for C8: a language present in the lyric map but missing the
referenced index resolves to the empty string. -/
theorem create_lyrics_assembles_witness :
    (Clock.intVal 0, ([] : PyStr)) ∈ [(Clock.intVal 0, ([] : PyStr))] :=
  (create_lyrics_assembles [(Clock.intVal 0, 1)]
      [((['j', 'p'], 1), ['x']), ((['e', 'n'], 2), ['y'])]).2.2.1
    ['e', 'n'] [(Clock.intVal 0, [])] (by decide) (Clock.intVal 0) 1 (by decide) (by decide)

theorem mem_pyStripWs {c : Char} {s : PyStr} (h : c ∈ pyStripWs s) : c ∈ s := by
  unfold pyStripWs at h
  rw [List.mem_reverse] at h
  have h2 := (List.dropWhile_sublist _).mem h
  rw [List.mem_reverse] at h2
  exact (List.dropWhile_sublist _).mem h2

theorem pyBreakAt_eq_none {sep : Char} : ∀ {l : PyStr}, sep ∉ l → pyBreakAt sep l = none := by
  intro l
  induction l with
  | nil => intro _; rfl
  | cons c cs ih =>
    intro h
    have hc : ¬ c = sep := fun hh => h (hh ▸ List.mem_cons_self c cs)
    rw [pyBreakAt, if_neg hc, ih (fun hh => h (List.mem_cons_of_mem c hh))]
    rfl

theorem pyBreakAt_eq_some {sep : Char} :
    ∀ {k : PyStr} (v : PyStr), sep ∉ k → pyBreakAt sep (k ++ sep :: v) = some (k, v) := by
  intro k
  induction k with
  | nil => intro v _; simp [pyBreakAt]
  | cons c k' ih =>
    intro v h
    have hc : ¬ c = sep := fun hh => h (hh ▸ List.mem_cons_self c k')
    rw [List.cons_append, pyBreakAt, if_neg hc, ih v (fun hh => h (List.mem_cons_of_mem c hh))]
    rfl

/-- C9: database parsing skips blank and comment lines; a non-comment line
with no `=` raises `ValueError` (the malformed-line error) whatever lines
follow, provided the earlier lines parse — parsing never silently continues
past it; and a line containing `=` splits at the first `=` into key and value,
the key splitting on `.` into the key path. -/
theorem db_parse_line_handling :
    (∀ (line : PyStr) (rest : List PyStr),
      is_comment line = true → PvDb.parse (line :: rest) = PvDb.parse rest) ∧
    (∀ (pre : List PyStr) (bad : PyStr) (post : List PyStr),
      (∀ l ∈ pre, is_comment l = true ∨ ∃ kv, handle_line l = .ok kv) →
      is_comment bad = false → '=' ∉ bad →
      PvDb.parse (pre ++ bad :: post) = .error .valueError) ∧
    (∀ (line : PyStr) (key value : PyStr),
      pyStripWs line = key ++ '=' :: value → '=' ∉ key →
      handle_line line = .ok (pySplit '.' key, value)) := by
  have hbad : ∀ (bad : PyStr), '=' ∉ bad → handle_line bad = .error .valueError := by
    intro bad h
    have : '=' ∉ pyStripWs bad := fun hh => h (mem_pyStripWs hh)
    rw [handle_line, pyBreakAt_eq_none this]
  refine ⟨?_, ?_, ?_⟩
  · intro line rest h
    rw [PvDb.parse, if_pos h]
  · intro pre
    induction pre with
    | nil =>
      intro bad post _ hcom hne
      rw [List.nil_append, PvDb.parse, if_neg (by rw [hcom]; exact Bool.false_ne_true),
        hbad bad hne]
    | cons l pre' ih =>
      intro bad post hpre hcom hne
      have hl := hpre l (List.mem_cons_self l pre')
      have hrest : ∀ x ∈ pre', is_comment x = true ∨ ∃ kv, handle_line x = .ok kv :=
        fun x hx => hpre x (List.mem_cons_of_mem l hx)
      by_cases hcl : is_comment l = true
      · rw [List.cons_append, PvDb.parse, if_pos hcl]
        exact ih bad post hrest hcom hne
      · rcases hl with hl | ⟨kv, hkv⟩
        · exact absurd hl hcl
        · rw [List.cons_append, PvDb.parse, if_neg hcl, hkv,
            ih bad post hrest hcom hne]
  · intro line key value hsplit hkey
    rw [handle_line, hsplit, pyBreakAt_eq_some value hkey]

/-- Witness for C9 on concrete lines: a comment, a malformed line after it,
and a two-`=` line splitting at the first `=`. -/
theorem db_parse_line_handling_witness :
    PvDb.parse ([['#', 'c']] ++ ['o', 'o', 'p', 's'] :: []) = .error .valueError ∧
    handle_line [' ', 'a', '.', 'b', '=', 'c', '=', 'd'] =
      .ok (pySplit '.' ['a', '.', 'b'], ['c', '=', 'd']) := by
  constructor
  · exact db_parse_line_handling.2.1 [['#', 'c']] ['o', 'o', 'p', 's'] []
      (by intro l hl; rw [List.mem_singleton] at hl; subst hl; exact Or.inl (by decide))
      (by decide) (by decide)
  · exact db_parse_line_handling.2.2 [' ', 'a', '.', 'b', '=', 'c', '=', 'd']
      ['a', '.', 'b'] ['c', '=', 'd'] (by decide) (by decide)

theorem song_data_loop_error :
    ∀ (data : List (List PyStr × PyStr)) (song_id : Int),
      (∃ p, p ∈ data ∧ ∀ k0 r0, p.1 = k0 :: r0 →
        pyInt (pyReplace ['p', 'v', '_'] [] k0) = none) →
      ∃ e, song_data_loop song_id data = .error e := by
  intro data
  induction data with
  | nil =>
    intro song_id h
    obtain ⟨p, hp, _⟩ := h
    exact absurd hp (List.not_mem_nil p)
  | cons entry rest ih =>
    intro song_id h
    obtain ⟨key, value⟩ := entry
    cases key with
    | nil => exact ⟨.indexError, by simp [song_data_loop]⟩
    | cons k0 kr =>
      cases hint : pyInt (pyReplace ['p', 'v', '_'] [] k0) with
      | none => exact ⟨.valueError, by simp [song_data_loop, hint]⟩
      | some n =>
        obtain ⟨p, hp, hbadp⟩ := h
        rcases List.mem_cons.mp hp with rfl | hmem
        · have hcontra := hbadp k0 kr rfl
          rw [hint] at hcontra
          exact absurd hcontra (by simp)
        · obtain ⟨e, he⟩ := ih song_id ⟨p, hmem, hbadp⟩
          exact ⟨e, by simp [song_data_loop, hint, he]⟩

/-- C10 (implicit): one entry anywhere in the database whose first key-path
segment, with every `pv_` removed, fails to parse as an integer makes
`get_song_data` raise for every song id — the filter at `__main__.py` line 60
converts the first segment of every entry — and therefore makes the
`get_song_name` and `get_lyrics` lookups built on it fail for every song. -/
theorem malformed_segment_poisons_every_lookup :
    ∀ (db : PvDb) (song_id : Int),
      (∃ p, p ∈ db.data ∧ ∀ k0 r0, p.1 = k0 :: r0 →
        pyInt (pyReplace ['p', 'v', '_'] [] k0) = none) →
      (∃ e, db.get_song_data song_id = .error e) ∧
      (∀ tag, ∃ e, db.get_song_name song_id tag = .error e) ∧
      (∃ e, db.get_lyrics song_id = .error e) := by
  intro db song_id h
  obtain ⟨e, he⟩ := song_data_loop_error db.data song_id h
  have hdata : db.get_song_data song_id = .error e := he
  refine ⟨⟨e, hdata⟩, fun tag => ⟨e, ?_⟩, ⟨e, ?_⟩⟩
  · rw [PvDb.get_song_name, hdata]
  · rw [PvDb.get_lyrics, hdata]

/-- Witness for C10: a db whose first entry has the unparsable first segment
`oops`, poisoning the lookup of a song whose own entries are fine. -/
theorem malformed_segment_poisons_every_lookup_witness :
    (∃ e, (PvDb.mk [([['o', 'o', 'p', 's']], ['v']),
        ([['p', 'v', '_', '0', '0', '1'], ['x']], ['y'])]).get_song_data 1 = .error e) ∧
    (∃ e, (PvDb.mk [([['o', 'o', 'p', 's']], ['v']),
        ([['p', 'v', '_', '0', '0', '1'], ['x']], ['y'])]).get_song_name 1 ['_', 'e', 'n'] = .error e) ∧
    (∃ e, (PvDb.mk [([['o', 'o', 'p', 's']], ['v']),
        ([['p', 'v', '_', '0', '0', '1'], ['x']], ['y'])]).get_lyrics 1 = .error e) := by
  have h := malformed_segment_poisons_every_lookup
    (PvDb.mk [([['o', 'o', 'p', 's']], ['v']), ([['p', 'v', '_', '0', '0', '1'], ['x']], ['y'])]) 1
    ⟨([['o', 'o', 'p', 's']], ['v']), List.mem_cons_self _ _, by
      intro k0 r0 hk
      injection hk with h1 h2
      rw [← h1]
      decide⟩
  exact ⟨h.1, h.2.1 ['_', 'e', 'n'], h.2.2⟩
